import Mathlib

/-!
A shallow embedding of the transaction-execution engine of the
`frost-snake` payment ledger (crates/lib/src/{ledger.rs, client.rs,
transaction.rs, lib.rs}), together with theorems settling the spec's
claims about it.

Currency model: `ICurrency = fixed::FixedI64<U16>` and
`UCurrency = fixed::FixedU64<U16>` are 64-bit fixed-point numbers with 16
fractional bits.  Arithmetic on them is exactly the checked arithmetic of
the underlying raw integers (`i64` / `u64`), so we embed currency values
as their raw integer contents: an `ICurrency` is an `Int` in
`[-2^63, 2^63)`, a `UCurrency` is a `Nat` in `[0, 2^64)`, and one whole
currency unit is `2^16` raw units.

The account-level operations invoked by `Ledger::execute`
(`ClientAccount::{deposit, withdraw, dispute, resolve, charge_back}` on an
account without an embedded deposit map, and the error variants
`AccountLocked` / `DuplicateDeposit`) are declared and called from
`ledger.rs` but their defining module is not part of the snapshot: the
`client.rs` present is an older trait-based revision whose `ClientAccount`
(private `deposits` field, no `AccountLocked`/`DuplicateDeposit` variants)
the rest of the crate does not compile against.  Those operations are
therefore modelled from the spec (§4.2, §7), and corroborated against the
identical arithmetic of the older `client.rs` revision where it overlaps.
-/

/-- Raw lower bound of `ICurrency` (`i64::MIN`). -/
def IMIN : Int := -(2 ^ 63)

/-- Raw upper bound of `ICurrency` (`i64::MAX`). -/
def IMAX : Int := 2 ^ 63 - 1

/-- Raw upper bound of `UCurrency` (`u64::MAX`). -/
def UMAX : Nat := 2 ^ 64 - 1

/-- `ICurrency::checked_add`: the exact sum when it stays in the signed
64-bit raw range, `none` on overflow. -/
def icheckedAdd (a b : Int) : Option Int :=
  if IMIN ≤ a + b ∧ a + b ≤ IMAX then some (a + b) else none

/-- `ICurrency::checked_sub`: the exact difference when it stays in the
signed 64-bit raw range, `none` otherwise. -/
def icheckedSub (a b : Int) : Option Int :=
  if IMIN ≤ a - b ∧ a - b ≤ IMAX then some (a - b) else none

/-- `UCurrency::checked_add`: the exact sum when it stays in the unsigned
64-bit raw range, `none` on overflow. -/
def ucheckedAdd (a b : Nat) : Option Nat :=
  if a + b ≤ UMAX then some (a + b) else none

/-- `UCurrency::checked_sub`: `none` exactly when the subtrahend exceeds
the minuend (unsigned underflow). -/
def ucheckedSub (a b : Nat) : Option Nat :=
  if b ≤ a then some (a - b) else none

/-- `UCurrency::checked_as::<ICurrency>()` (the `az::CheckedAs`
conversion): both types have 16 fractional bits, so the conversion
succeeds exactly when the raw `u64` value fits in `i64`, i.e. is at most
`2^63 - 1` (equivalently the amount is below `2^47` whole units). -/
def ucheckedAsI (u : Nat) : Option Int :=
  if u ≤ 2 ^ 63 - 1 then some (u : Int) else none

/-- `DepositState` (ledger.rs): the dispute status of a recorded deposit. -/
inductive DepositState where
  | ok
  | disputed
  | chargedBack
deriving DecidableEq, Repr

/-- `Deposit` (transaction.rs): `tx: u32`, `client: u16`,
`amount: UCurrency` (raw units). -/
structure Deposit where
  tx : Nat
  client : Nat
  amount : Nat
deriving DecidableEq, Repr

/-- `Withdrawal` (transaction.rs). -/
structure Withdrawal where
  tx : Nat
  client : Nat
  amount : Nat
deriving DecidableEq, Repr

/-- `Dispute` (transaction.rs): references a prior deposit by `tx`. -/
structure Dispute where
  tx : Nat
  client : Nat
deriving DecidableEq, Repr

/-- `Resolve` (transaction.rs): references a disputed deposit by `tx`. -/
structure Resolve where
  tx : Nat
  client : Nat
deriving DecidableEq, Repr

/-- `ChargeBack` (transaction.rs): references a disputed deposit by `tx`. -/
structure ChargeBack where
  tx : Nat
  client : Nat
deriving DecidableEq, Repr

/-- `Transaction` (transaction.rs): the closed tagged union of the five
transaction kinds. -/
inductive Transaction where
  | deposit (d : Deposit)
  | dispute (d : Dispute)
  | chargeBack (c : ChargeBack)
  | resolve (r : Resolve)
  | withdrawal (w : Withdrawal)
deriving DecidableEq, Repr

/-- `Transaction::get_client_id` (transaction.rs). -/
def Transaction.getClientId : Transaction → Nat
  | .deposit d => d.client
  | .dispute d => d.client
  | .chargeBack c => c.client
  | .resolve r => r.client
  | .withdrawal w => w.client

/-- `TransactionExecutionError` (client.rs / §7 error taxonomy).
`accountLocked` and `duplicateDeposit` are constructed by `ledger.rs` and
listed in the spec's taxonomy; the older `client.rs` revision in the
snapshot predates them. -/
inductive TransactionExecutionError where
  | insufficientFunds
  | accountLocked
  | depositNotFound (tx : Nat)
  | duplicateDeposit (tx : Nat)
  | invalidDepositState (tx : Nat) (expectedState actualState : DepositState)
  | overflow
  | underflow
deriving DecidableEq, Repr

/-- `ClientAccount` (the revision `ledger.rs` compiles against: the
deposit table lives in the `Ledger`, not in the account):
`id: u16`, `locked: bool`, `available: ICurrency`, `held: UCurrency`. -/
structure ClientAccount where
  id : Nat
  locked : Bool
  available : Int
  held : Nat
deriving DecidableEq, Repr

/-- `ClientAccount::new(id)`: default account, all balances zero. -/
def ClientAccount.new (id : Nat) : ClientAccount :=
  { id := id, locked := false, available := 0, held := 0 }

/-- Modelled from the spec: `ClientAccount::deposit` (§4.2), missing from
the snapshot (called from `ledger.rs`).  "available += amount (checked).
Always succeeds unless overflow.  No lock check."  The amount is first
converted `UCurrency → ICurrency` with `checked_as` (Overflow on
failure), then added with `checked_add` (Overflow on failure) — the same
arithmetic as the older `client.rs` revision's `Deposit` executor. -/
def ClientAccount.deposit (a : ClientAccount) (d : Deposit) :
    Except TransactionExecutionError ClientAccount :=
  match ucheckedAsI d.amount with
  | none => .error .overflow
  | some amount =>
    match icheckedAdd a.available amount with
    | none => .error .overflow
    | some avail => .ok { a with available := avail }

/-- Modelled from the spec: `ClientAccount::withdraw` (§4.2), missing from
the snapshot (called from `ledger.rs`).  "fails with `AccountLocked` if
locked.  Otherwise available -= amount (checked-sub as signed …); the
order is: perform the checked subtraction first (fails with `Underflow`
only on true numeric underflow of the representation), then reject
negative results with `InsufficientFunds`."  The amount conversion
(`checked_as`, Overflow on failure) precedes the subtraction, as in the
older `client.rs` revision's `Withdrawal` executor. -/
def ClientAccount.withdraw (a : ClientAccount) (w : Withdrawal) :
    Except TransactionExecutionError ClientAccount :=
  if a.locked then .error .accountLocked
  else
    match ucheckedAsI w.amount with
    | none => .error .overflow
    | some amount =>
      match icheckedSub a.available amount with
      | none => .error .underflow
      | some avail =>
        if avail < 0 then .error .insufficientFunds
        else .ok { a with available := avail }

/-- Modelled from the spec: `ClientAccount::dispute` (§4.2), missing from
the snapshot (called from `ledger.rs` with the stored amount and state).
"requires `currentState == Ok`, else fails with `InvalidDepositState
{expected: Ok, actual: currentState}`.  On success: available -=
referencedAmount (checked), held += referencedAmount (checked); returns
new state `Disputed`."  Error kinds of the checked steps as in the older
`client.rs` revision: conversion Overflow, signed sub Underflow, unsigned
add Overflow. -/
def ClientAccount.dispute (a : ClientAccount) (d : Dispute) (amount : Nat)
    (state : DepositState) :
    Except TransactionExecutionError (ClientAccount × DepositState) :=
  if state ≠ DepositState.ok then
    .error (.invalidDepositState d.tx DepositState.ok state)
  else
    match ucheckedAsI amount with
    | none => .error .overflow
    | some amtI =>
      match icheckedSub a.available amtI with
      | none => .error .underflow
      | some avail =>
        match ucheckedAdd a.held amount with
        | none => .error .overflow
        | some held =>
          .ok ({ a with available := avail, held := held }, .disputed)

/-- Modelled from the spec: `ClientAccount::resolve` (§4.2), missing from
the snapshot (called from `ledger.rs`).  "requires `currentState ==
Disputed`, else `InvalidDepositState{expected: Disputed, actual:
currentState}`.  On success: available += referencedAmount, held -=
referencedAmount; returns new state `Ok`."  The held subtraction signals
`Underflow` when it fails, as in the older `client.rs` revision. -/
def ClientAccount.resolve (a : ClientAccount) (r : Resolve) (amount : Nat)
    (state : DepositState) :
    Except TransactionExecutionError (ClientAccount × DepositState) :=
  if state ≠ DepositState.disputed then
    .error (.invalidDepositState r.tx DepositState.disputed state)
  else
    match ucheckedAsI amount with
    | none => .error .overflow
    | some amtI =>
      match icheckedAdd a.available amtI with
      | none => .error .overflow
      | some avail =>
        match ucheckedSub a.held amount with
        | none => .error .underflow
        | some held =>
          .ok ({ a with available := avail, held := held }, .ok)

/-- Modelled from the spec: `ClientAccount::charge_back` (§4.2), missing
from the snapshot (called from `ledger.rs`; the state requirement is also
pinned by ledger.rs's `cant_charge_back_multiple_times` test).  "requires
`currentState == Disputed`, else `InvalidDepositState{expected: Disputed,
actual: currentState}`.  On success: held -= referencedAmount; locked =
true (permanent); returns new state `ChargedBack`." -/
def ClientAccount.chargeBack (a : ClientAccount) (c : ChargeBack)
    (amount : Nat) (state : DepositState) :
    Except TransactionExecutionError (ClientAccount × DepositState) :=
  if state ≠ DepositState.disputed then
    .error (.invalidDepositState c.tx DepositState.disputed state)
  else
    match ucheckedSub a.held amount with
    | none => .error .underflow
    | some held =>
      .ok ({ a with held := held, locked := true }, .chargedBack)

/-- One entry of a client's deposit table
(`HashMap<u32, (UCurrency, DepositState)>` in ledger.rs): the key `tx`
and the stored `(amount, state)` pair.  The table is embedded as the
finite list of the map's entries. -/
abbrev DepMap := List (Nat × Nat × DepositState)

/-- `HashMap::get` on the deposit table: first entry with the given key
(entries have distinct keys in every state the code constructs). -/
def lookupD : DepMap → Nat → Option (Nat × DepositState)
  | [], _ => none
  | (t, a, s) :: rest, tx => if t = tx then some (a, s) else lookupD rest tx

/-- `Entry::Vacant::insert` on the deposit table: add an entry for a key
that is not present. -/
def insertD (dm : DepMap) (tx : Nat) (amount : Nat) (s : DepositState) :
    DepMap :=
  dm ++ [(tx, amount, s)]

/-- The write-back `*state = new_state` through `HashMap::get_mut`:
replace the state of the first entry with the given key, keeping its
amount. -/
def setStateD : DepMap → Nat → DepositState → DepMap
  | [], _, _ => []
  | (t, a, s) :: rest, tx, st =>
    if t = tx then (t, a, st) :: rest else (t, a, s) :: setStateD rest tx st

/-- `ClientAccountAndDeposits` (ledger.rs): a client's account together
with its deposit table. -/
structure ClientAccountAndDeposits where
  account : ClientAccount
  deposits : DepMap
deriving DecidableEq, Repr

/-- `ClientAccountAndDeposits::new(client)` (ledger.rs): fresh default
account, empty deposit table. -/
def ClientAccountAndDeposits.new (client : Nat) : ClientAccountAndDeposits :=
  { account := ClientAccount.new client, deposits := [] }

/-- `Ledger` (ledger.rs): the map `HashMap<u16, ClientAccountAndDeposits>`
from client id to that client's state, embedded as a partial function. -/
def Ledger := Nat → Option ClientAccountAndDeposits

/-- `Ledger::default()`: the empty map. -/
def Ledger.empty : Ledger := fun _ => none

/-- `HashMap::insert`-style update of the clients map at one key. -/
def updateL (l : Ledger) (c : Nat) (v : ClientAccountAndDeposits) : Ledger :=
  fun k => if k = c then some v else l k

/-- The dispatch body of `Ledger::execute` (ledger.rs, the `match
transaction` block): acts on the entry of the owning client — the
account and deposit table obtained from `entry().or_insert_with` — and
returns the error, if any, together with the entry's post-call value.
On every error path the entry is left as it was (the Rust `?` returns
before any assignment through the borrows). -/
def stepCAD (t : Transaction) (cad : ClientAccountAndDeposits) :
    Option TransactionExecutionError × ClientAccountAndDeposits :=
  match t with
  | .deposit d =>
    match lookupD cad.deposits d.tx with
    | some _ => (some (.duplicateDeposit d.tx), cad)
    | none =>
      match cad.account.deposit d with
      | .error e => (some e, cad)
      | .ok acc =>
        (none, { account := acc,
                 deposits := insertD cad.deposits d.tx d.amount DepositState.ok })
  | .dispute d =>
    match lookupD cad.deposits d.tx with
    | none => (some (.depositNotFound d.tx), cad)
    | some (amount, state) =>
      match cad.account.dispute d amount state with
      | .error e => (some e, cad)
      | .ok (acc, st) =>
        (none, { account := acc, deposits := setStateD cad.deposits d.tx st })
  | .chargeBack c =>
    match lookupD cad.deposits c.tx with
    | none => (some (.depositNotFound c.tx), cad)
    | some (amount, state) =>
      match cad.account.chargeBack c amount state with
      | .error e => (some e, cad)
      | .ok (acc, st) =>
        (none, { account := acc, deposits := setStateD cad.deposits c.tx st })
  | .resolve r =>
    match lookupD cad.deposits r.tx with
    | none => (some (.depositNotFound r.tx), cad)
    | some (amount, state) =>
      match cad.account.resolve r amount state with
      | .error e => (some e, cad)
      | .ok (acc, st) =>
        (none, { account := acc, deposits := setStateD cad.deposits r.tx st })
  | .withdrawal w =>
    match cad.account.withdraw w with
    | .error e => (some e, cad)
    | .ok acc => (none, { cad with account := acc })

/-- `Ledger::execute` (ledger.rs).  `&mut self` is made explicit: the
result pairs the returned error (`none` on `Ok`) with the ledger's state
after the call.  Step 1 is `entry(client_id).or_insert_with(new)` — the
client's entry is created if absent, and this creation persists even if
the dispatch then fails; step 2 is the dispatch on the entry
(`stepCAD`). -/
def Ledger.execute (l : Ledger) (t : Transaction) :
    Option TransactionExecutionError × Ledger :=
  let cid := t.getClientId
  let cad := (l cid).getD (ClientAccountAndDeposits.new cid)
  let r := stepCAD t cad
  (r.1, updateL l cid r.2)

/-- The driving loop (lib.rs `execute`): fold the transaction stream over
the ledger, keeping the (possibly lazily extended) state and dropping the
error when a transaction fails (`ledger.execute(transaction).ok()`). -/
def Ledger.replay (txs : List Transaction) : Ledger :=
  txs.foldl (fun l t => (l.execute t).2) Ledger.empty

/-- Contribution of one deposit-table entry to the disputed total: its
amount if it is currently `Disputed`, else `0`. -/
def contribD : Nat × Nat × DepositState → Nat
  | (_, a, DepositState.disputed) => a
  | _ => 0

/-- Sum of the amounts of the currently disputed deposits of a table. -/
def sumDisputed (dm : DepMap) : Nat := (dm.map contribD).sum

/-- The held-balance invariant: every client's `held` equals the sum of
its currently disputed deposit amounts. -/
def HeldInv (l : Ledger) : Prop :=
  ∀ c cad, l c = some cad → cad.account.held = sumDisputed cad.deposits

/-- Does the result of `Ledger::execute` carry the `Underflow` error? -/
def isUnderflowErr : Option TransactionExecutionError → Bool
  | some TransactionExecutionError.underflow => true
  | _ => false

theorem lookupD_mem {dm : DepMap} {tx a : Nat} {s : DepositState}
    (h : lookupD dm tx = some (a, s)) : (tx, a, s) ∈ dm := by
  induction dm with
  | nil => simp [lookupD] at h
  | cons e rest ih =>
    obtain ⟨t, a', s'⟩ := e
    by_cases ht : t = tx
    · subst ht
      simp [lookupD] at h
      simp [h.1, h.2]
    · simp [lookupD, ht] at h
      exact List.mem_cons_of_mem _ (ih h)

theorem contribD_le_sumDisputed {dm : DepMap} {e : Nat × Nat × DepositState}
    (h : e ∈ dm) : contribD e ≤ sumDisputed dm := by
  induction dm with
  | nil => simp at h
  | cons e' rest ih =>
    rcases List.mem_cons.mp h with h' | h'
    · subst h'
      simp [sumDisputed]
    · have := ih h'
      simp only [sumDisputed, List.map_cons, List.sum_cons] at this ⊢
      omega

theorem sumDisputed_insertD (dm : DepMap) (tx a : Nat) (s : DepositState) :
    sumDisputed (insertD dm tx a s) = sumDisputed dm + contribD (tx, a, s) := by
  simp [insertD, sumDisputed]

theorem sumDisputed_setStateD {dm : DepMap} {tx a : Nat} {st : DepositState}
    (h : lookupD dm tx = some (a, st)) (st' : DepositState) :
    sumDisputed (setStateD dm tx st') + contribD (tx, a, st) =
      sumDisputed dm + contribD (tx, a, st') := by
  induction dm with
  | nil => simp [lookupD] at h
  | cons e rest ih =>
    obtain ⟨t, a', s'⟩ := e
    by_cases ht : t = tx
    · subst ht
      simp only [lookupD, if_pos rfl, Option.some.injEq, Prod.mk.injEq] at h
      obtain ⟨rfl, rfl⟩ := h
      simp only [setStateD, if_pos rfl, sumDisputed, List.map_cons, List.sum_cons,
        if_true, eq_self_iff_true]
      omega
    · simp only [lookupD, if_neg ht] at h
      have := ih h
      simp only [setStateD, if_neg ht, sumDisputed, List.map_cons, List.sum_cons]
      simp only [sumDisputed] at this
      omega

theorem lookupD_setStateD_self {dm : DepMap} {tx a : Nat} {st : DepositState}
    (h : lookupD dm tx = some (a, st)) (st' : DepositState) :
    lookupD (setStateD dm tx st') tx = some (a, st') := by
  induction dm with
  | nil => simp [lookupD] at h
  | cons e rest ih =>
    obtain ⟨t, a', s'⟩ := e
    by_cases ht : t = tx
    · subst ht
      simp only [lookupD, if_pos rfl, Option.some.injEq, Prod.mk.injEq] at h
      obtain ⟨rfl, rfl⟩ := h
      simp [setStateD, lookupD]
    · simp only [lookupD, if_neg ht] at h
      simp only [setStateD, if_neg ht, lookupD, if_neg ht]
      exact ih h

theorem setStateD_append_fresh {dm : DepMap} {tx : Nat}
    (h : lookupD dm tx = none) (a : Nat) (s s' : DepositState) :
    setStateD (dm ++ [(tx, a, s)]) tx s' = dm ++ [(tx, a, s')] := by
  induction dm with
  | nil => simp [setStateD]
  | cons e rest ih =>
    obtain ⟨t, a', s''⟩ := e
    by_cases ht : t = tx
    · subst ht; simp [lookupD] at h
    · simp only [lookupD, if_neg ht] at h
      simp [setStateD, if_neg ht, ih h]

theorem lookupD_append_fresh {dm : DepMap} {tx : Nat}
    (h : lookupD dm tx = none) (a : Nat) (s : DepositState) :
    lookupD (dm ++ [(tx, a, s)]) tx = some (a, s) := by
  induction dm with
  | nil => simp [lookupD]
  | cons e rest ih =>
    obtain ⟨t, a', s''⟩ := e
    by_cases ht : t = tx
    · subst ht; simp [lookupD] at h
    · simp only [lookupD, if_neg ht] at h ⊢
      exact ih h

theorem deposit_ok_inv {a : ClientAccount} {d : Deposit} {acc : ClientAccount}
    (h : a.deposit d = .ok acc) :
    acc.held = a.held ∧ acc.locked = a.locked ∧ acc.id = a.id ∧
      acc.available = a.available + (d.amount : Int) ∧ d.amount ≤ 2 ^ 63 - 1 := by
  unfold ClientAccount.deposit at h
  split at h
  · exact absurd h (by simp)
  · rename_i amount hconv
    split at h
    · exact absurd h (by simp)
    · rename_i avail hadd
      simp only [Except.ok.injEq] at h
      subst h
      simp only [ucheckedAsI] at hconv
      split at hconv
      · rename_i hle
        simp only [Option.some.injEq] at hconv
        simp only [icheckedAdd] at hadd
        split at hadd
        · simp only [Option.some.injEq] at hadd
          subst hconv
          refine ⟨rfl, rfl, rfl, by simp [← hadd], by omega⟩
        · exact absurd hadd (by simp)
      · exact absurd hconv (by simp)

theorem withdraw_ok_inv {a : ClientAccount} {w : Withdrawal} {acc : ClientAccount}
    (h : a.withdraw w = .ok acc) :
    acc.held = a.held ∧ acc.locked = a.locked ∧ acc.id = a.id ∧
      a.locked = false ∧ acc.available = a.available - (w.amount : Int) ∧
      0 ≤ acc.available := by
  unfold ClientAccount.withdraw at h
  split at h
  · exact absurd h (by simp)
  · rename_i hnl
    split at h
    · exact absurd h (by simp)
    · rename_i amount hconv
      split at h
      · exact absurd h (by simp)
      · rename_i avail hsub
        split at h
        · exact absurd h (by simp)
        · rename_i hneg
          simp only [Except.ok.injEq] at h
          subst h
          simp only [ucheckedAsI] at hconv
          split at hconv
          · simp only [Option.some.injEq] at hconv
            subst hconv
            simp only [icheckedSub] at hsub
            split at hsub
            · simp only [Option.some.injEq] at hsub
              simp only [Bool.not_eq_true] at hnl
              refine ⟨rfl, rfl, rfl, hnl, by simp [← hsub], ?_⟩
              show (0 : Int) ≤ avail
              omega
            · exact absurd hsub (by simp)
          · exact absurd hconv (by simp)

theorem dispute_ok_inv {a : ClientAccount} {d : Dispute} {amount : Nat}
    {state : DepositState} {acc : ClientAccount} {st' : DepositState}
    (h : a.dispute d amount state = .ok (acc, st')) :
    state = DepositState.ok ∧ st' = DepositState.disputed ∧
      acc.held = a.held + amount ∧ acc.locked = a.locked ∧ acc.id = a.id ∧
      acc.available = a.available - (amount : Int) := by
  unfold ClientAccount.dispute at h
  split at h
  · exact absurd h (by simp)
  · rename_i hst
    simp only [ne_eq, not_not] at hst
    split at h
    · exact absurd h (by simp)
    · rename_i amtI hconv
      split at h
      · exact absurd h (by simp)
      · rename_i avail hsub
        split at h
        · exact absurd h (by simp)
        · rename_i held hadd
          simp only [Except.ok.injEq, Prod.mk.injEq] at h
          obtain ⟨rfl, rfl⟩ := h
          simp only [ucheckedAsI] at hconv
          split at hconv
          · simp only [Option.some.injEq] at hconv
            subst hconv
            simp only [icheckedSub] at hsub
            split at hsub
            · simp only [Option.some.injEq] at hsub
              simp only [ucheckedAdd] at hadd
              split at hadd
              · simp only [Option.some.injEq] at hadd
                exact ⟨hst, rfl, by simp [← hadd], rfl, rfl, by simp [← hsub]⟩
              · exact absurd hadd (by simp)
            · exact absurd hsub (by simp)
          · exact absurd hconv (by simp)

theorem resolve_ok_inv {a : ClientAccount} {r : Resolve} {amount : Nat}
    {state : DepositState} {acc : ClientAccount} {st' : DepositState}
    (h : a.resolve r amount state = .ok (acc, st')) :
    state = DepositState.disputed ∧ st' = DepositState.ok ∧
      amount ≤ a.held ∧ acc.held = a.held - amount ∧ acc.locked = a.locked ∧
      acc.id = a.id ∧ acc.available = a.available + (amount : Int) := by
  unfold ClientAccount.resolve at h
  split at h
  · exact absurd h (by simp)
  · rename_i hst
    simp only [ne_eq, not_not] at hst
    split at h
    · exact absurd h (by simp)
    · rename_i amtI hconv
      split at h
      · exact absurd h (by simp)
      · rename_i avail hadd
        split at h
        · exact absurd h (by simp)
        · rename_i held hsub
          simp only [Except.ok.injEq, Prod.mk.injEq] at h
          obtain ⟨rfl, rfl⟩ := h
          simp only [ucheckedAsI] at hconv
          split at hconv
          · simp only [Option.some.injEq] at hconv
            subst hconv
            simp only [icheckedAdd] at hadd
            split at hadd
            · simp only [Option.some.injEq] at hadd
              simp only [ucheckedSub] at hsub
              split at hsub
              · rename_i hle
                simp only [Option.some.injEq] at hsub
                exact ⟨hst, rfl, hle, by simp [← hsub], rfl, rfl, by simp [← hadd]⟩
              · exact absurd hsub (by simp)
            · exact absurd hadd (by simp)
          · exact absurd hconv (by simp)

theorem chargeBack_ok_inv {a : ClientAccount} {c : ChargeBack} {amount : Nat}
    {state : DepositState} {acc : ClientAccount} {st' : DepositState}
    (h : a.chargeBack c amount state = .ok (acc, st')) :
    state = DepositState.disputed ∧ st' = DepositState.chargedBack ∧
      amount ≤ a.held ∧ acc.held = a.held - amount ∧ acc.locked = true ∧
      acc.id = a.id ∧ acc.available = a.available := by
  unfold ClientAccount.chargeBack at h
  split at h
  · exact absurd h (by simp)
  · rename_i hst
    simp only [ne_eq, not_not] at hst
    split at h
    · exact absurd h (by simp)
    · rename_i held hsub
      simp only [Except.ok.injEq, Prod.mk.injEq] at h
      obtain ⟨rfl, rfl⟩ := h
      simp only [ucheckedSub] at hsub
      split at hsub
      · rename_i hle
        simp only [Option.some.injEq] at hsub
        exact ⟨hst, rfl, hle, by simp [← hsub], rfl, rfl, rfl⟩
      · exact absurd hsub (by simp)

theorem ClientAccount.eqOfFields {a b : ClientAccount} (h1 : a.id = b.id)
    (h2 : a.locked = b.locked) (h3 : a.available = b.available)
    (h4 : a.held = b.held) : a = b := by
  cases a; cases b; simp_all

theorem updateL_self (l : Ledger) (c : Nat) (v : ClientAccountAndDeposits) :
    updateL l c v c = some v := by
  simp [updateL]

theorem updateL_other (l : Ledger) {b c : Nat} (v : ClientAccountAndDeposits)
    (h : b ≠ c) : updateL l c v b = l b := by
  simp [updateL, h]

theorem updateL_eq_self {l : Ledger} {c : Nat} {v : ClientAccountAndDeposits}
    (h : l c = some v) : updateL l c v = l := by
  funext k
  by_cases hk : k = c
  · subst hk; simp [updateL, h]
  · simp [updateL, hk]

theorem updateL_updateL (l : Ledger) (c : Nat)
    (v v' : ClientAccountAndDeposits) :
    updateL (updateL l c v) c v' = updateL l c v' := by
  funext k
  by_cases hk : k = c <;> simp [updateL, hk]

theorem stepCAD_error_frame (t : Transaction) (cad : ClientAccountAndDeposits)
    {e : TransactionExecutionError} (h : (stepCAD t cad).1 = some e) :
    (stepCAD t cad).2 = cad := by
  cases t with
  | deposit d =>
    cases hl : lookupD cad.deposits d.tx with
    | some p => simp [stepCAD, hl]
    | none =>
      cases hd : cad.account.deposit d with
      | error e' => simp [stepCAD, hl, hd]
      | ok acc => simp [stepCAD, hl, hd] at h
  | dispute d =>
    cases hl : lookupD cad.deposits d.tx with
    | none => simp [stepCAD, hl]
    | some p =>
      obtain ⟨amt, st⟩ := p
      cases hd : cad.account.dispute d amt st with
      | error e' => simp [stepCAD, hl, hd]
      | ok pr => obtain ⟨acc, st'⟩ := pr; simp [stepCAD, hl, hd] at h
  | chargeBack c =>
    cases hl : lookupD cad.deposits c.tx with
    | none => simp [stepCAD, hl]
    | some p =>
      obtain ⟨amt, st⟩ := p
      cases hd : cad.account.chargeBack c amt st with
      | error e' => simp [stepCAD, hl, hd]
      | ok pr => obtain ⟨acc, st'⟩ := pr; simp [stepCAD, hl, hd] at h
  | resolve r =>
    cases hl : lookupD cad.deposits r.tx with
    | none => simp [stepCAD, hl]
    | some p =>
      obtain ⟨amt, st⟩ := p
      cases hd : cad.account.resolve r amt st with
      | error e' => simp [stepCAD, hl, hd]
      | ok pr => obtain ⟨acc, st'⟩ := pr; simp [stepCAD, hl, hd] at h
  | withdrawal w =>
    cases hd : cad.account.withdraw w with
    | error e' => simp [stepCAD, hd]
    | ok acc => simp [stepCAD, hd] at h

theorem deposit_ok_range {a : ClientAccount} {d : Deposit} {acc : ClientAccount}
    (h : a.deposit d = .ok acc) :
    IMIN ≤ acc.available ∧ acc.available ≤ IMAX := by
  unfold ClientAccount.deposit at h
  split at h
  · exact absurd h (by simp)
  · rename_i amount hconv
    split at h
    · exact absurd h (by simp)
    · rename_i avail hadd
      simp only [Except.ok.injEq] at h
      subst h
      simp only [icheckedAdd] at hadd
      split at hadd
      · rename_i hrange
        simp only [Option.some.injEq] at hadd
        subst hadd
        exact hrange
      · exact absurd hadd (by simp)

/-- C2: withdrawing from a locked account fails with `AccountLocked`
regardless of the available balance, and the committed ledger state —
in particular that client's account and deposit table — is exactly the
pre-call state. -/
theorem locked_withdrawal_fails (l : Ledger) (cad : ClientAccountAndDeposits)
    (w : Withdrawal) (hc : l w.client = some cad)
    (hl : cad.account.locked = true) :
    l.execute (.withdrawal w) = (some .accountLocked, l) := by
  have hw : cad.account.withdraw w = .error .accountLocked := by
    unfold ClientAccount.withdraw
    simp [hl]
  have hcid : (Transaction.withdrawal w).getClientId = w.client := rfl
  unfold Ledger.execute
  simp only [hcid, hc, Option.getD_some, stepCAD, hw]
  exact congrArg (Prod.mk (some TransactionExecutionError.accountLocked))
    (updateL_eq_self hc)

/-- Witness for C2 at a concrete locked account with ample balance. -/
theorem locked_withdrawal_fails_witness :
    (updateL Ledger.empty 1
        { account := { id := 1, locked := true, available := 655360, held := 0 },
          deposits := [] }).execute
      (.withdrawal { tx := 9, client := 1, amount := 65536 }) =
    (some .accountLocked,
      updateL Ledger.empty 1
        { account := { id := 1, locked := true, available := 655360, held := 0 },
          deposits := [] }) :=
  locked_withdrawal_fails _
    { account := { id := 1, locked := true, available := 655360, held := 0 },
      deposits := [] } _ rfl rfl

/-- C5: for an unlocked account (whose amount converts and whose balance
is in the representable range), `withdraw` performs the checked
subtraction of the amount from `available` first — it fails with
`Underflow` exactly on true numeric underflow of the representation —
and only a successfully computed negative result is rejected with
`InsufficientFunds`: that error occurs exactly when the subtraction is
representable but negative. -/
theorem withdraw_sub_then_check (a : ClientAccount) (w : Withdrawal)
    (amtI : Int) (hnl : a.locked = false)
    (hconv : ucheckedAsI w.amount = some amtI) (hub : a.available ≤ IMAX) :
    (a.withdraw w = .error .underflow ↔ a.available - amtI < IMIN) ∧
    (a.withdraw w = .error .insufficientFunds ↔
      IMIN ≤ a.available - amtI ∧ a.available - amtI < 0) := by
  have hamt : 0 ≤ amtI := by
    simp only [ucheckedAsI] at hconv
    split at hconv
    · simp only [Option.some.injEq] at hconv
      subst hconv
      positivity
    · exact absurd hconv (by simp)
  have hub2 : a.available - amtI ≤ IMAX := by omega
  cases hs : icheckedSub a.available amtI with
  | none =>
    have hx : a.available - amtI < IMIN := by
      simp only [icheckedSub] at hs
      split at hs
      · exact absurd hs (by simp)
      · rename_i hc
        rcases not_and_or.mp hc with h | h
        · omega
        · omega
    unfold ClientAccount.withdraw
    simp only [hnl, Bool.false_eq_true, if_false, hconv, hs]
    refine ⟨⟨fun _ => hx, fun _ => ?_⟩, ⟨fun h => ?_, fun h => absurd h.1 (by omega)⟩⟩
    · trivial
    · first
      | exact h.elim
      | exact absurd h (by simp)
  | some v =>
    have hv : v = a.available - amtI ∧ IMIN ≤ v := by
      simp only [icheckedSub] at hs
      split at hs
      · rename_i hc
        simp only [Option.some.injEq] at hs
        subst hs
        exact ⟨rfl, hc.1⟩
      · exact absurd hs (by simp)
    obtain ⟨rfl, hge⟩ := hv
    unfold ClientAccount.withdraw
    simp only [hnl, Bool.false_eq_true, if_false, hconv, hs]
    by_cases hneg : a.available - amtI < 0
    · rw [if_pos hneg]
      exact ⟨⟨fun h => absurd h (by simp), fun h => by omega⟩,
        ⟨fun _ => ⟨hge, hneg⟩, fun _ => rfl⟩⟩
    · rw [if_neg hneg]
      exact ⟨⟨fun h => absurd h (by simp), fun h => by omega⟩,
        ⟨fun h => absurd h (by simp), fun h => absurd h.2 hneg⟩⟩

/-- Witness for C5 at a concrete unlocked account holding 10.0 with a
withdrawal of 1.0 (raw units, 2^16 per whole unit). -/
theorem withdraw_sub_then_check_witness :
    (ClientAccount.withdraw { id := 1, locked := false, available := 655360, held := 0 }
        { tx := 2, client := 1, amount := 65536 } = .error .underflow ↔
      (655360 : Int) - 65536 < IMIN) ∧
    (ClientAccount.withdraw { id := 1, locked := false, available := 655360, held := 0 }
        { tx := 2, client := 1, amount := 65536 } = .error .insufficientFunds ↔
      IMIN ≤ (655360 : Int) - 65536 ∧ (655360 : Int) - 65536 < 0) :=
  withdraw_sub_then_check
    { id := 1, locked := false, available := 655360, held := 0 }
    { tx := 2, client := 1, amount := 65536 } 65536 rfl (by decide) (by decide)

/-- C7: a Dispute referencing a recorded deposit requires the record's
state to be `Ok` — otherwise it fails with `InvalidDepositState{expected:
Ok, actual: current}` and the ledger is unchanged — and on success the
client's available balance decreases by the recorded amount (checked),
held increases by that amount (checked), and the record's new state is
`Disputed`. -/
theorem dispute_requires_ok (l : Ledger) (cad : ClientAccountAndDeposits)
    (tx c amt : Nat) (st : DepositState)
    (hc : l c = some cad) (hd : lookupD cad.deposits tx = some (amt, st)) :
    (st ≠ DepositState.ok →
      l.execute (.dispute { tx := tx, client := c }) =
        (some (.invalidDepositState tx DepositState.ok st), l)) ∧
    ((l.execute (.dispute { tx := tx, client := c })).1 = none →
      st = DepositState.ok ∧
      (l.execute (.dispute { tx := tx, client := c })).2 c = some
        { account := { cad.account with
            available := cad.account.available - (amt : Int),
            held := cad.account.held + amt },
          deposits := setStateD cad.deposits tx DepositState.disputed } ∧
      lookupD (setStateD cad.deposits tx DepositState.disputed) tx =
        some (amt, DepositState.disputed)) := by
  have hcid : (Transaction.dispute { tx := tx, client := c }).getClientId = c :=
    rfl
  constructor
  · intro hst
    have hop : cad.account.dispute { tx := tx, client := c } amt st =
        .error (.invalidDepositState tx DepositState.ok st) := by
      unfold ClientAccount.dispute
      simp [hst]
    unfold Ledger.execute
    simp only [hcid, hc, Option.getD_some, stepCAD, hd, hop]
    exact congrArg (Prod.mk _) (updateL_eq_self hc)
  · intro hnone
    unfold Ledger.execute at hnone ⊢
    simp only [hcid, hc, Option.getD_some, stepCAD, hd] at hnone ⊢
    cases hop : cad.account.dispute { tx := tx, client := c } amt st with
    | error e => simp [hop] at hnone
    | ok pr =>
      obtain ⟨acc, st'⟩ := pr
      obtain ⟨hst, hst', hheld, hlock, hid, havail⟩ := dispute_ok_inv hop
      subst hst'
      have hacc : acc = { cad.account with
          available := cad.account.available - (amt : Int),
          held := cad.account.held + amt } :=
        ClientAccount.eqOfFields hid hlock havail hheld
      refine ⟨hst, ?_, lookupD_setStateD_self hd DepositState.disputed⟩
      simp [hop, updateL_self, hacc]

/-- Witness for C7: disputing a deposit that is already `Disputed` fails
with the exact `InvalidDepositState` error and changes nothing. -/
theorem dispute_requires_ok_witness :
    (updateL Ledger.empty 1
        { account := { id := 1, locked := false, available := 0, held := 65536 },
          deposits := [(5, 65536, DepositState.disputed)] }).execute
      (.dispute { tx := 5, client := 1 }) =
    (some (.invalidDepositState 5 DepositState.ok DepositState.disputed),
      updateL Ledger.empty 1
        { account := { id := 1, locked := false, available := 0, held := 65536 },
          deposits := [(5, 65536, DepositState.disputed)] }) :=
  (dispute_requires_ok _
    { account := { id := 1, locked := false, available := 0, held := 65536 },
      deposits := [(5, 65536, DepositState.disputed)] }
    5 1 65536 DepositState.disputed rfl rfl).1 (by decide)

/-- C3: a ChargeBack referencing a recorded deposit whose state is not
`Disputed` fails with `InvalidDepositState{expected: Disputed, actual:
current}` and changes nothing; and a chargeback succeeds only when the
record is currently `Disputed`, in which case held decreases by the
recorded amount, the account becomes locked, and the record's state
becomes `ChargedBack`. -/
theorem chargeback_requires_disputed (l : Ledger)
    (cad : ClientAccountAndDeposits) (tx c amt : Nat) (st : DepositState)
    (hc : l c = some cad) (hd : lookupD cad.deposits tx = some (amt, st)) :
    (st ≠ DepositState.disputed →
      l.execute (.chargeBack { tx := tx, client := c }) =
        (some (.invalidDepositState tx DepositState.disputed st), l)) ∧
    ((l.execute (.chargeBack { tx := tx, client := c })).1 = none →
      st = DepositState.disputed ∧ amt ≤ cad.account.held ∧
      (l.execute (.chargeBack { tx := tx, client := c })).2 c = some
        { account := { cad.account with
            held := cad.account.held - amt, locked := true },
          deposits := setStateD cad.deposits tx DepositState.chargedBack } ∧
      lookupD (setStateD cad.deposits tx DepositState.chargedBack) tx =
        some (amt, DepositState.chargedBack)) := by
  have hcid :
      (Transaction.chargeBack { tx := tx, client := c }).getClientId = c := rfl
  constructor
  · intro hst
    have hop : cad.account.chargeBack { tx := tx, client := c } amt st =
        .error (.invalidDepositState tx DepositState.disputed st) := by
      unfold ClientAccount.chargeBack
      simp [hst]
    unfold Ledger.execute
    simp only [hcid, hc, Option.getD_some, stepCAD, hd, hop]
    exact congrArg (Prod.mk _) (updateL_eq_self hc)
  · intro hnone
    unfold Ledger.execute at hnone ⊢
    simp only [hcid, hc, Option.getD_some, stepCAD, hd] at hnone ⊢
    cases hop : cad.account.chargeBack { tx := tx, client := c } amt st with
    | error e => simp [hop] at hnone
    | ok pr =>
      obtain ⟨acc, st'⟩ := pr
      obtain ⟨hst, hst', hle, hheld, hlock, hid, havail⟩ := chargeBack_ok_inv hop
      subst hst'
      have hacc : acc = { cad.account with
          held := cad.account.held - amt, locked := true } :=
        ClientAccount.eqOfFields hid hlock havail hheld
      refine ⟨hst, hle, ?_, lookupD_setStateD_self hd DepositState.chargedBack⟩
      simp [hop, updateL_self, hacc]

/-- Witness for C3: charging back a deposit that is still `Ok` (never
disputed) fails with the exact `InvalidDepositState` error and changes
nothing. -/
theorem chargeback_requires_disputed_witness :
    (updateL Ledger.empty 2
        { account := { id := 2, locked := false, available := 131072, held := 0 },
          deposits := [(7, 131072, DepositState.ok)] }).execute
      (.chargeBack { tx := 7, client := 2 }) =
    (some (.invalidDepositState 7 DepositState.disputed DepositState.ok),
      updateL Ledger.empty 2
        { account := { id := 2, locked := false, available := 131072, held := 0 },
          deposits := [(7, 131072, DepositState.ok)] }) :=
  (chargeback_requires_disputed _
    { account := { id := 2, locked := false, available := 131072, held := 0 },
      deposits := [(7, 131072, DepositState.ok)] }
    7 2 131072 DepositState.ok rfl rfl).1 (by decide)

/-- C6: a Deposit whose tx id is already present in the client's deposit
table fails with `DuplicateDeposit(tx)` and mutates nothing; if the tx id
is fresh and the account-level deposit succeeds, the new account is
committed and `(amount, Ok)` is recorded in the deposit table under that
tx id. -/
theorem deposit_duplicate_check (l : Ledger) (cad : ClientAccountAndDeposits)
    (d : Deposit) (hc : l d.client = some cad) :
    ((∃ p, lookupD cad.deposits d.tx = some p) →
      l.execute (.deposit d) = (some (.duplicateDeposit d.tx), l)) ∧
    (lookupD cad.deposits d.tx = none →
      ∀ acc, cad.account.deposit d = .ok acc →
        l.execute (.deposit d) =
          (none, updateL l d.client
            { account := acc,
              deposits :=
                insertD cad.deposits d.tx d.amount DepositState.ok })) := by
  have hcid : (Transaction.deposit d).getClientId = d.client := rfl
  constructor
  · rintro ⟨p, hp⟩
    unfold Ledger.execute
    simp only [hcid, hc, Option.getD_some, stepCAD, hp]
    exact congrArg (Prod.mk _) (updateL_eq_self hc)
  · intro hfresh acc hacc
    unfold Ledger.execute
    simp only [hcid, hc, Option.getD_some, stepCAD, hfresh, hacc]

/-- Witness for C6: re-depositing tx 3 for a client that already recorded
tx 3 fails with `DuplicateDeposit(3)` and leaves the ledger unchanged. -/
theorem deposit_duplicate_check_witness :
    (updateL Ledger.empty 1
        { account := { id := 1, locked := false, available := 65536, held := 0 },
          deposits := [(3, 65536, DepositState.ok)] }).execute
      (.deposit { tx := 3, client := 1, amount := 131072 }) =
    (some (.duplicateDeposit 3),
      updateL Ledger.empty 1
        { account := { id := 1, locked := false, available := 65536, held := 0 },
          deposits := [(3, 65536, DepositState.ok)] }) :=
  (deposit_duplicate_check _
    { account := { id := 1, locked := false, available := 65536, held := 0 },
      deposits := [(3, 65536, DepositState.ok)] }
    { tx := 3, client := 1, amount := 131072 } rfl).1
    ⟨(65536, DepositState.ok), rfl⟩

/-- C8: executing a transaction for client A leaves every other client's
account and deposit table untouched, and its outcome — the returned
error and the post-state of A's entry — depends only on A's own entry,
not on any other client's state (in particular not on colliding tx ids
in other clients' deposit tables). -/
theorem cross_client_isolation (l l' : Ledger) (t : Transaction) (b : Nat) :
    (b ≠ t.getClientId → (l.execute t).2 b = l b) ∧
    (l t.getClientId = l' t.getClientId →
      (l.execute t).1 = (l'.execute t).1 ∧
      (l.execute t).2 t.getClientId = (l'.execute t).2 t.getClientId) := by
  constructor
  · intro hb
    unfold Ledger.execute
    exact updateL_other l _ hb
  · intro hagree
    simp only [Ledger.execute]
    rw [hagree]
    exact ⟨rfl, by rw [updateL_self, updateL_self]⟩

/-- Witness for C8: a deposit for client 1 does not touch client 2's
entry, with both parts applied at a ledger containing only client 2 and a
colliding tx id. -/
theorem cross_client_isolation_witness :
    ((updateL Ledger.empty 2
        { account := { id := 2, locked := false, available := 65536, held := 0 },
          deposits := [(1, 65536, DepositState.ok)] }).execute
      (.deposit { tx := 1, client := 1, amount := 65536 })).2 2 =
    updateL Ledger.empty 2
        { account := { id := 2, locked := false, available := 65536, held := 0 },
          deposits := [(1, 65536, DepositState.ok)] } 2 :=
  (cross_client_isolation
    (updateL Ledger.empty 2
      { account := { id := 2, locked := false, available := 65536, held := 0 },
        deposits := [(1, 65536, DepositState.ok)] })
    Ledger.empty (.deposit { tx := 1, client := 1, amount := 65536 }) 2).1
    (by decide)

/-- C1 counterexample: executing a failing Withdrawal (insufficient
funds) for a client id the ledger has never seen leaves behind a freshly
created empty client entry — the set of client ids present in the map is
not equal to its pre-call value, refuting the claim as stated. -/
theorem execute_error_leaves_new_client :
    (Ledger.empty.execute
        (.withdrawal { tx := 1, client := 1, amount := 65536 })).1 =
      some .insufficientFunds ∧
    Ledger.empty 1 = none ∧
    (Ledger.empty.execute
        (.withdrawal { tx := 1, client := 1, amount := 65536 })).2 1 =
      some (ClientAccountAndDeposits.new 1) := by
  refine ⟨rfl, rfl, ?_⟩
  decide

/-- C1 (amended): if `Ledger::execute` returns an error, every client id
present before the call keeps exactly its previous account and deposit
table (so if the transaction's client already existed, the whole map is
unchanged); the only possible difference is that a previously absent
client id of the failing transaction remains as a freshly created
default entry from the `entry().or_insert_with` step. -/
theorem execute_error_state (l : Ledger) (t : Transaction)
    (e : TransactionExecutionError) (h : (l.execute t).1 = some e) :
    (∀ b, b ≠ t.getClientId → (l.execute t).2 b = l b) ∧
    (∀ cad, l t.getClientId = some cad → (l.execute t).2 = l) ∧
    (l t.getClientId = none →
      (l.execute t).2 =
        updateL l t.getClientId
          (ClientAccountAndDeposits.new t.getClientId)) := by
  refine ⟨fun b hb => ?_, fun cad hcad => ?_, fun hnone => ?_⟩
  · unfold Ledger.execute
    exact updateL_other l _ hb
  · have hframe :
        (stepCAD t ((l t.getClientId).getD
          (ClientAccountAndDeposits.new t.getClientId))).2 =
        (l t.getClientId).getD (ClientAccountAndDeposits.new t.getClientId) :=
      stepCAD_error_frame t _ h
    show updateL l t.getClientId _ = l
    rw [hframe, hcad]
    exact updateL_eq_self hcad
  · have hframe :
        (stepCAD t ((l t.getClientId).getD
          (ClientAccountAndDeposits.new t.getClientId))).2 =
        (l t.getClientId).getD (ClientAccountAndDeposits.new t.getClientId) :=
      stepCAD_error_frame t _ h
    show updateL l t.getClientId _ = _
    rw [hframe, hnone]
    rfl

/-- Witness for C1's amended theorem: the failing withdrawal above keeps
client 2's pre-existing entry intact. -/
theorem execute_error_state_witness :
    ((updateL Ledger.empty 2
        { account := { id := 2, locked := false, available := 9, held := 0 },
          deposits := [] }).execute
      (.withdrawal { tx := 1, client := 1, amount := 65536 })).2 2 =
    updateL Ledger.empty 2
      { account := { id := 2, locked := false, available := 9, held := 0 },
        deposits := [] } 2 :=
  (execute_error_state
    (updateL Ledger.empty 2
      { account := { id := 2, locked := false, available := 9, held := 0 },
        deposits := [] })
    (.withdrawal { tx := 1, client := 1, amount := 65536 })
    .insufficientFunds (by decide)).1 2 (by decide)

/-- C10 counterexample: a Withdrawal of an unrepresentable amount
(raw `2^63`, i.e. `2^47` whole units) against a locked account fails
with `AccountLocked`, not with the claimed `Overflow` — the lock check
precedes the signed conversion. -/
theorem locked_withdrawal_unrepresentable_amount :
    ucheckedAsI (2 ^ 63) = none ∧
    ClientAccount.withdraw { id := 1, locked := true, available := 0, held := 0 }
        { tx := 1, client := 1, amount := 2 ^ 63 } =
      .error .accountLocked := by
  constructor
  · decide
  · rfl

/-- C10 (amended): an account-level Deposit whose unsigned amount is not
representable as a signed `ICurrency` (raw value at least `2^63`, i.e.
`2^47` whole units) always fails with `Overflow` at the signed↔unsigned
conversion before any field is mutated, and so does a Withdrawal of such
an amount provided the account is not locked (a locked account fails
with `AccountLocked` first). -/
theorem unrepresentable_amount_overflow (a : ClientAccount) (tx c m : Nat)
    (hm : 2 ^ 63 ≤ m) :
    a.deposit { tx := tx, client := c, amount := m } = .error .overflow ∧
    (a.locked = false →
      a.withdraw { tx := tx, client := c, amount := m } = .error .overflow) := by
  have hconv : ucheckedAsI m = none := by
    unfold ucheckedAsI
    rw [if_neg]
    omega
  constructor
  · unfold ClientAccount.deposit
    simp [hconv]
  · intro hnl
    unfold ClientAccount.withdraw
    simp [hnl, hconv]

/-- Witness for C10's amended theorem at amount `2^63` and a fresh
unlocked account. -/
theorem unrepresentable_amount_overflow_witness :
    ClientAccount.deposit { id := 3, locked := false, available := 0, held := 0 }
        { tx := 8, client := 3, amount := 2 ^ 63 } = .error .overflow ∧
    ClientAccount.withdraw { id := 3, locked := false, available := 0, held := 0 }
        { tx := 8, client := 3, amount := 2 ^ 63 } = .error .overflow := by
  have h := unrepresentable_amount_overflow
    { id := 3, locked := false, available := 0, held := 0 } 8 3 (2 ^ 63)
    (by decide)
  exact ⟨h.1, h.2 rfl⟩

theorem execute_unfold (l : Ledger) (t : Transaction) :
    l.execute t =
      ((stepCAD t ((l t.getClientId).getD
          (ClientAccountAndDeposits.new t.getClientId))).1,
        updateL l t.getClientId
          (stepCAD t ((l t.getClientId).getD
            (ClientAccountAndDeposits.new t.getClientId))).2) := rfl

/-- C4: starting from any ledger state, a successful Deposit followed by
a successful Dispute of that same (fresh) tx followed by a Resolve of it
succeeds and yields exactly the ledger state reached by the Deposit
alone — same available, held and locked flag, and the deposit record
back at `(amount, Ok)`. -/
theorem deposit_dispute_resolve_roundtrip (l : Ledger) (d : Deposit)
    (h1 : (l.execute (.deposit d)).1 = none)
    (h2 : ((l.execute (.deposit d)).2.execute
        (.dispute { tx := d.tx, client := d.client })).1 = none) :
    ((l.execute (.deposit d)).2.execute
        (.dispute { tx := d.tx, client := d.client })).2.execute
      (.resolve { tx := d.tx, client := d.client }) =
    (none, (l.execute (.deposit d)).2) := by
  simp only [execute_unfold, Transaction.getClientId] at h1 h2 ⊢
  cases hl0 : lookupD ((l d.client).getD
      (ClientAccountAndDeposits.new d.client)).deposits d.tx with
  | some p => simp [stepCAD, hl0] at h1
  | none =>
  cases hdep : ((l d.client).getD
      (ClientAccountAndDeposits.new d.client)).account.deposit d with
  | error e => simp [stepCAD, hl0, hdep] at h1
  | ok acc =>
  obtain ⟨hheld1, hlock1, hid1, havail1, hle⟩ := deposit_ok_inv hdep
  obtain ⟨hrlo, hrhi⟩ := deposit_ok_range hdep
  have hstep1 : stepCAD (.deposit d) ((l d.client).getD
      (ClientAccountAndDeposits.new d.client)) =
      (none, { account := acc,
               deposits := insertD ((l d.client).getD
                 (ClientAccountAndDeposits.new d.client)).deposits d.tx
                 d.amount DepositState.ok }) := by
    simp [stepCAD, hl0, hdep]
  rw [hstep1] at h2 ⊢
  have hlk1 : lookupD (insertD ((l d.client).getD
      (ClientAccountAndDeposits.new d.client)).deposits d.tx d.amount
        DepositState.ok) d.tx = some (d.amount, DepositState.ok) := by
    simpa [insertD] using lookupD_append_fresh hl0 d.amount DepositState.ok
  simp only [updateL_self, Option.getD_some] at h2 ⊢
  cases hdisp : acc.dispute { tx := d.tx, client := d.client } d.amount
      DepositState.ok with
  | error e => simp [stepCAD, hlk1, hdisp] at h2
  | ok pr =>
  obtain ⟨acc2, st2⟩ := pr
  obtain ⟨-, hst2, hheld2, hlock2, hid2, havail2⟩ := dispute_ok_inv hdisp
  subst hst2
  have hstep2 : stepCAD (.dispute { tx := d.tx, client := d.client })
      { account := acc,
        deposits := insertD ((l d.client).getD
          (ClientAccountAndDeposits.new d.client)).deposits d.tx d.amount
          DepositState.ok } =
      (none, { account := acc2,
               deposits := setStateD (insertD ((l d.client).getD
                 (ClientAccountAndDeposits.new d.client)).deposits d.tx
                 d.amount DepositState.ok) d.tx DepositState.disputed }) := by
    simp [stepCAD, hlk1, hdisp]
  rw [hstep2] at h2 ⊢
  simp only [updateL_self, Option.getD_some]
  -- the resolve step succeeds and restores the post-deposit entry
  have hcv : ucheckedAsI d.amount = some (d.amount : Int) := by
    unfold ucheckedAsI
    rw [if_pos hle]
  have hadd : icheckedAdd acc2.available (d.amount : Int) = some acc.available := by
    have hsum : acc2.available + (d.amount : Int) = acc.available := by
      rw [havail2]; ring
    unfold icheckedAdd
    rw [hsum, if_pos ⟨hrlo, hrhi⟩]
  have hsub : ucheckedSub acc2.held d.amount = some acc.held := by
    rw [hheld2]
    unfold ucheckedSub
    rw [if_pos (by omega)]
    simp
  have hres : acc2.resolve { tx := d.tx, client := d.client } d.amount
      DepositState.disputed = .ok (acc, DepositState.ok) := by
    unfold ClientAccount.resolve
    rw [if_neg (by simp)]
    simp only [hcv, hadd, hsub]
    have hfix : { acc2 with available := acc.available, held := acc.held } = acc :=
      ClientAccount.eqOfFields hid2 hlock2 rfl rfl
    rw [hfix]
  have hlk2 : lookupD (setStateD (insertD ((l d.client).getD
      (ClientAccountAndDeposits.new d.client)).deposits d.tx d.amount
        DepositState.ok) d.tx DepositState.disputed) d.tx =
      some (d.amount, DepositState.disputed) :=
    lookupD_setStateD_self hlk1 DepositState.disputed
  have hdm : setStateD (setStateD (insertD ((l d.client).getD
      (ClientAccountAndDeposits.new d.client)).deposits d.tx d.amount
        DepositState.ok) d.tx DepositState.disputed) d.tx DepositState.ok =
      insertD ((l d.client).getD
        (ClientAccountAndDeposits.new d.client)).deposits d.tx d.amount
        DepositState.ok := by
    simp only [insertD]
    rw [setStateD_append_fresh hl0, setStateD_append_fresh hl0]
  have hstep3 : stepCAD (.resolve { tx := d.tx, client := d.client })
      { account := acc2,
        deposits := setStateD (insertD ((l d.client).getD
          (ClientAccountAndDeposits.new d.client)).deposits d.tx d.amount
          DepositState.ok) d.tx DepositState.disputed } =
      (none, { account := acc,
               deposits := insertD ((l d.client).getD
                 (ClientAccountAndDeposits.new d.client)).deposits d.tx
                 d.amount DepositState.ok }) := by
    simp [stepCAD, hlk2, hres, hdm]
  rw [hstep3]
  rw [updateL_updateL, updateL_updateL]

/-- Witness for C4 at a fresh ledger, depositing 1.0 as tx 1 for client 1
then disputing and resolving it. -/
theorem deposit_dispute_resolve_roundtrip_witness :
    ((Ledger.empty.execute (.deposit { tx := 1, client := 1, amount := 65536 })).2.execute
        (.dispute { tx := 1, client := 1 })).2.execute
      (.resolve { tx := 1, client := 1 }) =
    (none,
      (Ledger.empty.execute
        (.deposit { tx := 1, client := 1, amount := 65536 })).2) :=
  deposit_dispute_resolve_roundtrip Ledger.empty
    { tx := 1, client := 1, amount := 65536 } (by decide) (by decide)

theorem contribD_ok (tx a : Nat) : contribD (tx, a, DepositState.ok) = 0 := rfl

theorem contribD_disputed (tx a : Nat) :
    contribD (tx, a, DepositState.disputed) = a := rfl

theorem contribD_chargedBack (tx a : Nat) :
    contribD (tx, a, DepositState.chargedBack) = 0 := rfl

theorem stepCAD_held_inv (t : Transaction) (cad : ClientAccountAndDeposits)
    (h : cad.account.held = sumDisputed cad.deposits) :
    (stepCAD t cad).2.account.held = sumDisputed (stepCAD t cad).2.deposits := by
  cases t with
  | deposit d =>
    cases hl : lookupD cad.deposits d.tx with
    | some p => simpa [stepCAD, hl] using h
    | none =>
      cases hdep : cad.account.deposit d with
      | error e => simpa [stepCAD, hl, hdep] using h
      | ok acc =>
        obtain ⟨hheld, -, -, -, -⟩ := deposit_ok_inv hdep
        simp only [stepCAD, hl, hdep]
        rw [hheld, h, sumDisputed_insertD, contribD_ok]
        omega
  | dispute d =>
    cases hl : lookupD cad.deposits d.tx with
    | none => simpa [stepCAD, hl] using h
    | some p =>
      obtain ⟨amt, st⟩ := p
      cases hop : cad.account.dispute d amt st with
      | error e => simpa [stepCAD, hl, hop] using h
      | ok pr =>
        obtain ⟨acc, st'⟩ := pr
        obtain ⟨hst, hst', hheld, -, -, -⟩ := dispute_ok_inv hop
        subst hst
        subst hst'
        simp only [stepCAD, hl, hop]
        have hs := sumDisputed_setStateD hl DepositState.disputed
        rw [contribD_ok, contribD_disputed] at hs
        rw [hheld, h]
        omega
  | resolve r =>
    cases hl : lookupD cad.deposits r.tx with
    | none => simpa [stepCAD, hl] using h
    | some p =>
      obtain ⟨amt, st⟩ := p
      cases hop : cad.account.resolve r amt st with
      | error e => simpa [stepCAD, hl, hop] using h
      | ok pr =>
        obtain ⟨acc, st'⟩ := pr
        obtain ⟨hst, hst', hle, hheld, -, -, -⟩ := resolve_ok_inv hop
        subst hst
        subst hst'
        simp only [stepCAD, hl, hop]
        have hs := sumDisputed_setStateD hl DepositState.ok
        rw [contribD_ok, contribD_disputed] at hs
        rw [hheld, h]
        rw [h] at hle
        omega
  | chargeBack c =>
    cases hl : lookupD cad.deposits c.tx with
    | none => simpa [stepCAD, hl] using h
    | some p =>
      obtain ⟨amt, st⟩ := p
      cases hop : cad.account.chargeBack c amt st with
      | error e => simpa [stepCAD, hl, hop] using h
      | ok pr =>
        obtain ⟨acc, st'⟩ := pr
        obtain ⟨hst, hst', hle, hheld, -, -, -⟩ := chargeBack_ok_inv hop
        subst hst
        subst hst'
        simp only [stepCAD, hl, hop]
        have hs := sumDisputed_setStateD hl DepositState.chargedBack
        rw [contribD_chargedBack, contribD_disputed] at hs
        rw [hheld, h]
        rw [h] at hle
        omega
  | withdrawal w =>
    cases hw : cad.account.withdraw w with
    | error e => simpa [stepCAD, hw] using h
    | ok acc =>
      obtain ⟨hheld, -, -, -, -, -⟩ := withdraw_ok_inv hw
      simp only [stepCAD, hw]
      rw [hheld, h]

theorem execute_held_inv {l : Ledger} (t : Transaction) (h : HeldInv l) :
    HeldInv (l.execute t).2 := by
  intro c cad hc
  rw [execute_unfold] at hc
  replace hc : updateL l t.getClientId
      (stepCAD t ((l t.getClientId).getD
        (ClientAccountAndDeposits.new t.getClientId))).2 c = some cad := hc
  by_cases hcc : c = t.getClientId
  · subst hcc
    rw [updateL_self] at hc
    have hbase : ((l t.getClientId).getD
        (ClientAccountAndDeposits.new t.getClientId)).account.held =
        sumDisputed ((l t.getClientId).getD
          (ClientAccountAndDeposits.new t.getClientId)).deposits := by
      cases hlc : l t.getClientId with
      | some cad0 => simpa using h t.getClientId cad0 hlc
      | none =>
        simp [ClientAccountAndDeposits.new, ClientAccount.new, sumDisputed]
    have heq := Option.some.inj hc
    rw [← heq]
    exact stepCAD_held_inv t _ hbase
  · rw [updateL_other _ _ hcc] at hc
    exact h c cad hc

theorem foldl_held_inv (txs : List Transaction) :
    ∀ l : Ledger, HeldInv l →
      HeldInv (txs.foldl (fun l t => (l.execute t).2) l) := by
  induction txs with
  | nil => exact fun l h => h
  | cons t ts ih => exact fun l h => ih _ (execute_held_inv t h)

theorem replay_held_inv (txs : List Transaction) :
    HeldInv (Ledger.replay txs) := by
  unfold Ledger.replay
  apply foldl_held_inv
  intro c cad hc
  simp [Ledger.empty] at hc

theorem resolve_error_ne_underflow (a : ClientAccount) (r : Resolve)
    (amt : Nat) (st : DepositState)
    (hle : st = DepositState.disputed → amt ≤ a.held) :
    a.resolve r amt st ≠ .error .underflow := by
  unfold ClientAccount.resolve
  split
  · simp
  · rename_i hst
    have h := hle (not_not.mp hst)
    have hsub : ucheckedSub a.held amt = some (a.held - amt) := by
      unfold ucheckedSub
      rw [if_pos h]
    cases hcv : ucheckedAsI amt with
    | none => simp [hcv]
    | some amtI =>
      cases hadd : icheckedAdd a.available amtI with
      | none => simp [hcv, hadd]
      | some avail => simp [hcv, hadd, hsub]

theorem chargeBack_error_ne_underflow (a : ClientAccount) (c : ChargeBack)
    (amt : Nat) (st : DepositState)
    (hle : st = DepositState.disputed → amt ≤ a.held) :
    a.chargeBack c amt st ≠ .error .underflow := by
  unfold ClientAccount.chargeBack
  split
  · simp
  · rename_i hst
    have h := hle (not_not.mp hst)
    have hsub : ucheckedSub a.held amt = some (a.held - amt) := by
      unfold ucheckedSub
      rw [if_pos h]
    simp [hsub]

theorem isUnderflowErr_some_ne {e : TransactionExecutionError}
    (h : e ≠ TransactionExecutionError.underflow) :
    isUnderflowErr (some e) = false := by
  cases e <;> first
    | rfl
    | exact absurd rfl h

/-- C9: starting from the default (empty) Ledger, no finite transaction
sequence can reach a state in which a Resolve or a ChargeBack fails with
`Underflow`: the checked subtraction of the deposit amount from `held`
inside those two operations never fails, because `held` always equals
the sum of the currently disputed amounts. -/
theorem replay_resolve_chargeback_never_underflow (txs : List Transaction)
    (tx c : Nat) :
    isUnderflowErr ((Ledger.replay txs).execute
      (.resolve { tx := tx, client := c })).1 = false ∧
    isUnderflowErr ((Ledger.replay txs).execute
      (.chargeBack { tx := tx, client := c })).1 = false := by
  have hinv := replay_held_inv txs
  have hbase : ∀ cid : Nat, ((Ledger.replay txs cid).getD
      (ClientAccountAndDeposits.new cid)).account.held =
      sumDisputed ((Ledger.replay txs cid).getD
        (ClientAccountAndDeposits.new cid)).deposits := by
    intro cid
    cases hlc : Ledger.replay txs cid with
    | some cad0 => simpa using hinv cid cad0 hlc
    | none => simp [ClientAccountAndDeposits.new, ClientAccount.new, sumDisputed]
  constructor
  · rw [execute_unfold]
    simp only [Transaction.getClientId]
    cases hlk : lookupD ((Ledger.replay txs c).getD
        (ClientAccountAndDeposits.new c)).deposits tx with
    | none => simp [stepCAD, hlk, isUnderflowErr]
    | some p =>
      obtain ⟨amt, st⟩ := p
      have hle : st = DepositState.disputed →
          amt ≤ ((Ledger.replay txs c).getD
            (ClientAccountAndDeposits.new c)).account.held := by
        intro hst
        subst hst
        rw [hbase c]
        exact contribD_le_sumDisputed (lookupD_mem hlk)
      cases hop : ((Ledger.replay txs c).getD
          (ClientAccountAndDeposits.new c)).account.resolve
          { tx := tx, client := c } amt st with
      | ok pr => simp [stepCAD, hlk, hop, isUnderflowErr]
      | error e =>
        have hne : e ≠ .underflow := fun he =>
          resolve_error_ne_underflow _ _ _ _ hle (he ▸ hop)
        simp only [stepCAD, hlk, hop]
        exact isUnderflowErr_some_ne hne
  · rw [execute_unfold]
    simp only [Transaction.getClientId]
    cases hlk : lookupD ((Ledger.replay txs c).getD
        (ClientAccountAndDeposits.new c)).deposits tx with
    | none => simp [stepCAD, hlk, isUnderflowErr]
    | some p =>
      obtain ⟨amt, st⟩ := p
      have hle : st = DepositState.disputed →
          amt ≤ ((Ledger.replay txs c).getD
            (ClientAccountAndDeposits.new c)).account.held := by
        intro hst
        subst hst
        rw [hbase c]
        exact contribD_le_sumDisputed (lookupD_mem hlk)
      cases hop : ((Ledger.replay txs c).getD
          (ClientAccountAndDeposits.new c)).account.chargeBack
          { tx := tx, client := c } amt st with
      | ok pr => simp [stepCAD, hlk, hop, isUnderflowErr]
      | error e =>
        have hne : e ≠ .underflow := fun he =>
          chargeBack_error_ne_underflow _ _ _ _ hle (he ▸ hop)
        simp only [stepCAD, hlk, hop]
        exact isUnderflowErr_some_ne hne
